import Mathlib

/-!
Verification of the URDF-to-Simox-XML conversion engine
(`urdf_to_simox_xml.cpp`) against its specification.

The C++ engine is shallowly embedded: `std::string` values are Lean
`String`s, with the string algorithms (`boost::iter_split`,
`std::string::find`, `to_upper_copy`, ...) re-implemented as executable
structural recursions over the underlying character lists; `double`
values are modelled as rationals (the engine performs no arithmetic on
them, it only formats them with `std::fixed << std::setprecision(3)`);
the `boost::property_tree` XML document is the inductive `XmlNode` tree;
process-terminating error paths (`exit(EXIT_FAILURE)`) are `Except`
errors named after the specification's error taxonomy; the external
`meshlabserver` subprocess is an oracle `String -> List String` giving
the diagnostic lines printed for a command, plus an exit code that the
engine never inspects.
-/

/-- Error taxonomy of the conversion run (spec section 7).  Each
constructor names one `exit(EXIT_FAILURE)` site of the source. -/
inductive SimoxError : Type where
  | MalformedOutputName
  | UnresolvedPackage
  | MalformedMeshReference
  | MeshConversionFailed
  | UnsupportedGeometry
  | UnsupportedJointType
  | EmptyModel
  | IOFailure
deriving DecidableEq

/-! ### String primitives

The C++ code manipulates byte strings; these helpers re-implement the
exact operations it uses, as structural recursions over `List Char` so
that every concrete run kernel-evaluates. -/

/-- Whether `needle` is a prefix of `hay` (used to locate substring matches). -/
def isPre : List Char → List Char → Bool
  | [], _ => true
  | _ :: _, [] => false
  | a :: as, b :: bs => a == b && isPre as bs

/-- Split `s` at every occurrence of `sep`, like `boost::iter_split`
with `first_finder` (and like repeated `std::string::find`).  The
`fuel` argument only drives structural termination; it is always
supplied as more than the length of the scanned list. -/
def splitFuel (sep : List Char) : Nat → List Char → List Char → List (List Char)
  | _, [], acc => [acc.reverse]
  | 0, s, acc => [acc.reverse ++ s]
  | fuel+1, c :: rest, acc =>
    if isPre sep (c :: rest) then
      acc.reverse :: splitFuel sep fuel (List.drop (sep.length - 1) rest) []
    else
      splitFuel sep fuel rest (c :: acc)

/-- Embeds `boost::iter_split(out, s, first_finder(sep))`. -/
def strSplitOn (sep s : String) : List String :=
  (splitFuel sep.data (s.data.length + 1) s.data []).map String.mk

/-- Embeds `boost::to_upper_copy`. -/
def strUpper (s : String) : String := String.mk (s.data.map Char.toUpper)

/-- Embeds `boost::to_lower_copy`. -/
def strLower (s : String) : String := String.mk (s.data.map Char.toLower)

/-- Embeds `std::string::at(0)`: first character of an identifier (the source
only ever applies it to non-empty names). -/
def strFront (s : String) : Char := s.data.headD 'A'

/-- Rebuild the string obtained by erasing the first occurrence of
`sep` from `s` (the inverse step of `strSplitOn` for one occurrence):
`std::string::erase(pos, len)` after a successful `find`. -/
def strJoinWith (sep : String) (parts : List String) : String :=
  String.mk (List.intercalate sep.data (parts.map String.data))

/-- Does `hay` contain `needle` as a substring
(`std::string::find(needle) != npos`)? -/
def hasSub (needle hay : String) : Bool :=
  match strSplitOn needle hay with
  | _ :: _ :: _ => true
  | _ => false

/-- Lexicographic `operator<` of `std::string`. -/
def lexLt : List Char → List Char → Bool
  | [], [] => false
  | [], _ :: _ => true
  | _ :: _, [] => false
  | a :: as, b :: bs => if a < b then true else if b < a then false else lexLt as bs

/-- Embeds `compareUrdfJoint`: order two entities by name (`j1->name < j2->name`). -/
def strLt (a b : String) : Bool := lexLt a.data b.data

/-- Insertion step of the name sort. -/
def insertByName (f : α → String) (x : α) : List α → List α
  | [] => [x]
  | y :: ys => if strLt (f x) (f y) then x :: y :: ys else y :: insertByName f x ys

/-- Embeds `std::sort(joints_.begin(), joints_.end(), compareUrdfJoint)`:
sort by name (any sort agreeing with the comparator is observably
equal on the document, which only depends on the sorted sequence). -/
def sortByName (f : α → String) : List α → List α
  | [] => []
  | x :: xs => insertByName f x (sortByName f xs)

/-! ### Fixed-point number formatting -/

/-- Decimal digits of a natural number (fuel-driven). -/
def natDigits : Nat → Nat → List Char
  | 0, _ => []
  | fuel+1, n =>
    if n < 10 then [Char.ofNat (48 + n)]
    else natDigits fuel (n / 10) ++ [Char.ofNat (48 + n % 10)]

/-- Decimal rendering of a natural number. -/
def natStr (n : Nat) : String := String.mk (natDigits (n + 1) n)

/-- Left-pad the fractional part to exactly three digits. -/
def pad3 (m : Nat) : String :=
  if m < 10 then "00" ++ natStr m
  else if m < 100 then "0" ++ natStr m
  else natStr m

/-- Embeds `UrdfToSimoxXml::to_string_`: `std::fixed << std::setprecision(3)`;
the double is modelled as a rational and rounded to the nearest
thousandth (the half-way tie direction never matters for the values the
claims exercise). -/
def to_string (x : ℚ) : String :=
  let n : ℤ := Int.fdiv (2 * 1000 * x.num + (x.den : ℤ)) (2 * (x.den : ℤ))
  let m := n.natAbs
  (if n < 0 then "-" else "") ++ natStr (m / 1000) ++ "." ++ pad3 (m % 1000)

/-! ### The target XML document -/

/-- A `boost::property_tree` XML element: tag, attributes
(`<xmlattr>` children), free text (`<xmltext>`), an optional
`<xmlcomment>` (a repeated `put` replaces it, so one survives), and the
ordered child elements. -/
inductive XmlNode : Type where
  | mk (tag : String) (attrs : List (String × String)) (text : String)
       (comment : Option String) (children : List XmlNode)

def XmlNode.tag : XmlNode → String
  | .mk t _ _ _ _ => t

def XmlNode.attrs : XmlNode → List (String × String)
  | .mk _ a _ _ _ => a

def XmlNode.text : XmlNode → String
  | .mk _ _ x _ _ => x

def XmlNode.children : XmlNode → List XmlNode
  | .mk _ _ _ _ c => c

/-- The `name` attribute of an element (`""` when absent). -/
def nameAttr (nd : XmlNode) : String := (nd.attrs.lookup "name").getD ""

/-- The name referenced by an element when it is a `Child` reference. -/
def childEntry (nd : XmlNode) : List String :=
  if nd.tag = "Child" then [nameAttr nd] else []

/-- Names referenced by the `Child` sub-elements of an element. -/
def childRefNames (nd : XmlNode) : List String := nd.children.flatMap childEntry

/-- The name referenced by an element when it is a `Node` member entry. -/
def nodeEntry (nd : XmlNode) : List String :=
  if nd.tag = "Node" then [nameAttr nd] else []

/-- Names referenced by the `Node` sub-elements of an element
(end-effector `Preshape`/`Static`/`Actor` members, `RobotNodeSet`
members). -/
def nodeMemberNames (nd : XmlNode) : List String := nd.children.flatMap nodeEntry

/-- The name defined by an element when it is a `RobotNode`. -/
def robotEntry (nd : XmlNode) : List String :=
  if nd.tag = "RobotNode" then [nameAttr nd] else []

/-- The names *defined* by a list of sibling elements: one per
`RobotNode` (the only element kind a Simox reference can resolve to). -/
def robotNamesOf (l : List XmlNode) : List String := l.flatMap robotEntry

/-- All node references carried by one direct child of the root
element: `Child` references of a `RobotNode`; `base`/`tcp`/`gcp`
attributes and `Preshape`/`Static`/`Actor` member names of the
`Endeffector`; member names of the `RobotNodeSet`. -/
def refsOfChild (nd : XmlNode) : List String :=
  if nd.tag = "RobotNode" then childRefNames nd
  else if nd.tag = "Endeffector" then
    [(nd.attrs.lookup "base").getD "", (nd.attrs.lookup "tcp").getD "",
     (nd.attrs.lookup "gcp").getD ""] ++ nd.children.flatMap nodeMemberNames
  else if nd.tag = "RobotNodeSet" then nodeMemberNames nd
  else []

/-- Every node reference in the emitted document. -/
def refsOf (doc : XmlNode) : List String := doc.children.flatMap refsOfChild

/-! ### The source kinematic model (spec section 3) -/

/-- Embeds `urdf::Joint::type`; only `REVOLUTE` and `FIXED` are supported, any
other kind is represented by `other`. -/
inductive JointType : Type where
  | revolute
  | fixed
  | other
deriving DecidableEq

/-- Embeds `urdf::JointLimits` (`lower`/`upper`, radians). -/
structure JointLimits : Type where
  lower : ℚ
  upper : ℚ

/-- A pose, expressed as the translation and roll/pitch/yaw the engine
extracts from it (`urdf::Pose` position plus `getRPY` of its rotation). -/
structure Pose : Type where
  x : ℚ
  y : ℚ
  z : ℚ
  roll : ℚ
  pitch : ℚ
  yaw : ℚ

/-- Embeds `urdf::Geometry`: a mesh reference or one of the unsupported
primitive kinds. -/
inductive UrdfGeometry : Type where
  | mesh (filename : String)
  | box
  | cylinder
  | sphere
deriving DecidableEq

/-- Embeds `urdf::Visual`: origin pose plus geometry. -/
structure Visual : Type where
  origin : Pose
  geometry : UrdfGeometry

/-- Embeds `urdf::Joint`: name, kind, frame pose, axis and limits (meaningful
for rotational joints). -/
structure JointInfo : Type where
  name : String
  kind : JointType
  origin : Pose
  axisX : ℚ
  axisY : ℚ
  axisZ : ℚ
  limits : JointLimits

mutual
/-- The well-formed source kinematic tree (spec section 3 invariant:
links and joints form a tree, every joint has exactly one parent and
one child link).  `LinkTree` is a link together with its outgoing
joints; `JointList` is a link's ordered `child_joints`, each joint
paired with the child link `getLink(child_link_name)` resolves to. -/
inductive LinkTree : Type where
  | mk (name : String) (visual : Visual) (children : JointList)
inductive JointList : Type where
  | nil
  | cons (joint : JointInfo) (child : LinkTree) (rest : JointList)
end

/-- Name of a link (`link->name`). -/
def rootNameOf : LinkTree → String
  | .mk n _ _ => n

/-- Names of a link's direct `child_joints`, in declaration order. -/
def jlNames : JointList → List String
  | .nil => []
  | .cons j _ rest => j.name :: jlNames rest

mutual
/-- All link names of the subtree, root first (the engine's `links_`
vector restricted to this subtree; `links_[0]` is the root). -/
def linkNames : LinkTree → List String
  | .mk n _ cs => n :: linkNamesJ cs
def linkNamesJ : JointList → List String
  | .nil => []
  | .cons _ c rest => linkNames c ++ linkNamesJ rest
end

mutual
/-- All joint names of the subtree, in depth-first declaration order
(the order the constructor collects `joints_` in, before sorting). -/
def jointNames : LinkTree → List String
  | .mk _ _ cs => jointNamesJ cs
def jointNamesJ : JointList → List String
  | .nil => []
  | .cons j c rest => j.name :: jointNames c ++ jointNamesJ rest
end

/-! ### The mesh delegate (`UrdfToSimoxXml::convert_mesh_`) -/

/-- External collaborators and fixed run parameters of one conversion:
`ros::package::getPath`, the `meshlabserver` stdout oracle (lines
printed for a given command line), the subprocess exit status (which
the engine never reads), and the output directory. -/
structure EmitEnv : Type where
  resolvePkg : String → String
  toolOut : String → List String
  toolExit : Int
  output_dir : String

/-- Observable outcome of `convert_mesh_`: the returned path or fatal
error, whether `popen` ran the external tool, and whether `pclose` was
reached before the function terminated. -/
structure ConvRun : Type where
  result : Except SimoxError String
  toolInvoked : Bool
  handleClosed : Bool

/-- The package scheme marker `"package://"`. -/
def pkgScheme : String := "package://"

/-- The meshlabserver diagnostic signature `"loaded has 0 vn"`. -/
def meshErrSig : String := "loaded has 0 vn"

/-- The value of `urdf_filename` with the first occurrence of `"package://"`
erased (`std::string::erase` after `find`). -/
def eraseScheme (urdf_filename : String) : String :=
  let parts := strSplitOn pkgScheme urdf_filename
  (parts.headD "") ++ strJoinWith pkgScheme parts.tail

/-- The absolute source mesh path: resolved package directory plus
`"/" + token` for every path token after the package name. -/
def originalPath (env : EmitEnv) (urdf_filename : String) : String :=
  let segs := strSplitOn "/" (eraseScheme urdf_filename)
  env.resolvePkg (segs.headD "") ++ String.join (segs.tail.map fun tok => "/" ++ tok)

/-- The target `.wrl` path: `output_dir + "/meshes/" + base`, where
`base` is the last `/`-component of the original reference, truncated
at its first `.`, with `".wrl"` appended (the component stays empty
when the reference has no `/`, exactly as in the source). -/
def simoxTarget (output_dir urdf_filename : String) : String :=
  let parts := strSplitOn "/" urdf_filename
  let lastPart := match parts with
    | _ :: _ :: _ => parts.getLastD ""
    | _ => ""
  let stem := ((strSplitOn "." lastPart).headD "")
  output_dir ++ "/meshes/" ++ (stem ++ ".wrl")

/-- The `meshlabserver -i <src> -o <dst>` command line handed to `popen`. -/
def meshCmd (env : EmitEnv) (urdf_filename : String) : String :=
  "meshlabserver -i " ++ originalPath env urdf_filename ++ " -o "
    ++ simoxTarget env.output_dir urdf_filename

/-- Embeds `UrdfToSimoxXml::convert_mesh_`.  Fails with
`MalformedMeshReference` when `"package://"` does not occur in the
reference, or when the remainder has fewer than two `/`-separated
segments; otherwise runs the external tool and scans its output,
failing with `MeshConversionFailed` (without reaching `pclose` — the
source calls `exit` mid-scan) when any line contains the diagnostic
signature, and returning the target path otherwise. -/
def convert_mesh (env : EmitEnv) (urdf_filename : String) : ConvRun :=
  if (strSplitOn pkgScheme urdf_filename).length < 2 then
    ⟨.error .MalformedMeshReference, false, false⟩
  else if (strSplitOn "/" (eraseScheme urdf_filename)).length < 2 then
    ⟨.error .MalformedMeshReference, false, false⟩
  else if (env.toolOut (meshCmd env urdf_filename)).any (fun l => hasSub meshErrSig l) then
    ⟨.error .MeshConversionFailed, true, false⟩
  else
    ⟨.ok (simoxTarget env.output_dir urdf_filename), true, true⟩

/-! ### XML node builders (the `set_*_node_` helpers) -/

/-- Embeds `set_translation_node_`. -/
def translationXml (x y z : ℚ) : XmlNode :=
  .mk "Translation"
    [("x", to_string x), ("y", to_string y), ("z", to_string z), ("unitsLength", "m")]
    "" none []

/-- Embeds `set_rollpitchyaw_node_`. -/
def rpyXml (roll pitch yaw : ℚ) : XmlNode :=
  .mk "rollpitchyaw"
    [("roll", to_string roll), ("pitch", to_string pitch), ("yaw", to_string yaw),
     ("unitsAngle", "radian")]
    "" none []

/-- Embeds `set_axis_node_`. -/
def axisXml (x y z : ℚ) : XmlNode :=
  .mk "Axis" [("x", to_string x), ("y", to_string y), ("z", to_string z)] "" none []

/-- Embeds `set_joint_limits_node_`. -/
def limitsXml (limits : JointLimits) : XmlNode :=
  .mk "Limits"
    [("unit", "radian"), ("lo", to_string limits.lower), ("hi", to_string limits.upper)]
    "" none []

/-- A `Transform` node holding a `Translation` and a `rollpitchyaw`
derived from a pose. -/
def transformXml (p : Pose) : XmlNode :=
  .mk "Transform" [] "" none [translationXml p.x p.y p.z, rpyXml p.roll p.pitch p.yaw]

/-- A `Child` reference element. -/
def childRefXml (n : String) : XmlNode := .mk "Child" [("name", n)] "" none []

/-- A `File type="Inventor"` element whose text is the mesh path. -/
def fileXml (path : String) : XmlNode := .mk "File" [("type", "Inventor")] path none []

/-! ### The tree emitter (`add_link_node_` / `add_joint_node_`) -/

/-- The `RobotNode` emitted for one link: name, transform from the
visual origin, visualization and collision models (both pointing at the
converted mesh), and one `Child` reference per outgoing joint. -/
def mkLinkXml (name : String) (origin : Pose) (visPath colPath : String)
    (jnames : List String) : XmlNode :=
  .mk "RobotNode" [("name", name)] "" none
    (transformXml origin
      :: .mk "Visualization" [("enable", "true")] "" none [fileXml visPath]
      :: .mk "CollisionModel" [] "" none [fileXml colPath]
      :: jnames.map childRefXml)

/-- The `Joint` payload of a joint node: axis and limits for a
revolute joint, bare `type="fixed"` for a fixed one, fatal
`UnsupportedJointType` otherwise. -/
def mkJointPayload (j : JointInfo) : Except SimoxError XmlNode :=
  match j.kind with
  | .revolute =>
    .ok (.mk "Joint" [("type", "revolute")] "" none
      [axisXml j.axisX j.axisY j.axisZ, limitsXml j.limits])
  | .fixed => .ok (.mk "Joint" [("type", "fixed")] "" none [])
  | .other => .error .UnsupportedJointType

/-- The `RobotNode` emitted for one joint: name, transform from the
parent-to-joint pose, the `Joint` payload, and the single `Child`
reference to the joint's child link. -/
def mkJointXml (j : JointInfo) (childLinkName : String) (payload : XmlNode) : XmlNode :=
  .mk "RobotNode" [("name", j.name)] "" none
    [transformXml j.origin, payload, childRefXml childLinkName]

mutual
/-- Embeds `add_link_node_`: emit the link's `RobotNode` (failing with
`UnsupportedGeometry` on non-mesh geometry, or propagating a mesh
conversion failure — the source converts the mesh once for the
visualization and once for the collision model), then recurse into the
child joints in declaration order. -/
def emitLink (env : EmitEnv) : LinkTree → Except SimoxError (List XmlNode)
  | .mk name visual cs =>
    match visual.geometry with
    | .mesh fname =>
      match (convert_mesh env fname).result with
      | .error e => .error e
      | .ok visPath =>
        match (convert_mesh env fname).result with
        | .error e => .error e
        | .ok colPath =>
          match emitJoints env cs with
          | .error e => .error e
          | .ok rest =>
            .ok (mkLinkXml name visual.origin visPath colPath (jlNames cs) :: rest)
    | _ => .error .UnsupportedGeometry
/-- Embeds `add_joint_node_` over a link's `child_joints`: emit each joint's
`RobotNode` (failing first on an unsupported joint kind), then the
joint's child link subtree, then the remaining joints. -/
def emitJoints (env : EmitEnv) : JointList → Except SimoxError (List XmlNode)
  | .nil => .ok []
  | .cons j c rest =>
    match mkJointPayload j with
    | .error e => .error e
    | .ok payload =>
      match emitLink env c with
      | .error e => .error e
      | .ok sub =>
        match emitJoints env rest with
        | .error e => .error e
        | .ok more => .ok (mkJointXml j (rootNameOf c) payload :: sub ++ more)
end

/-! ### Actor classifier and document assembler -/

/-- Sorted insertion of a key into the key list of a `std::map<int,bool>`
(all stored values are `true`; only the key set is observable). -/
def insertKey (c : Char) : List Char → List Char
  | [] => [c]
  | d :: ds =>
    if c < d then c :: d :: ds
    else if c = d then d :: ds
    else d :: insertKey c ds

/-- Embeds `UrdfToSimoxXml::get_actors`: insert the first character of every
joint name into a `std::map` keyed by the character code; the
observable result is the map's key sequence (ascending iteration
order). -/
def get_actors (jointNamesArg : List String) : List Char :=
  jointNamesArg.foldl (fun acc n => insertKey (strFront n) acc) []

/-- Modelled from the spec (section 4.3 contract wording, for
comparison with `get_actors`): "the set of distinct first characters,
preserving the order in which each distinct character was first
observed". -/
def firstObs : List Char → List Char
  | [] => []
  | c :: cs => c :: (firstObs cs).filter (fun d => d != c)

/-- The spec-side actor classifier: first-observed-order distinct
first characters of the identifier list. -/
def firstObservedKeys (jointNamesArg : List String) : List Char :=
  firstObs (jointNamesArg.map strFront)

/-- An `Actor` group member entry (`considerCollisions="None"`). -/
def actorMemberXml (n : String) : XmlNode :=
  .mk "Node" [("name", n), ("considerCollisions", "None")] "" none []

/-- One `Actor` group: named by the single group character, listing
every link and then every joint whose name starts with it. -/
def actorXml (links_ joints_ : List String) (c : Char) : XmlNode :=
  .mk "Actor" [("name", String.mk [c])] ""
    (some "Note that considerCollisions = None, Actors, or All!")
    ((links_.filter (fun l => strFront l = c)).map actorMemberXml
      ++ (joints_.filter (fun j => strFront j = c)).map actorMemberXml)

/-- One `Preshape` member: a joint preset to 0.0 radians. -/
def preshapeEntryXml (jn : String) : XmlNode :=
  .mk "Node" [("name", jn), ("unit", "radian"), ("value", "0.0")] "" none []

/-- The `Preshape` template listing every joint of `joints_`. -/
def preshapeXml (joints_ : List String) : XmlNode :=
  .mk "Preshape" [("name", "Grasp Preshape")] ""
    (some "This is just a template. Please set values manually!")
    (joints_.map preshapeEntryXml)

/-- The `Static` node referencing the base link. -/
def staticXml (base_link : String) : XmlNode :=
  .mk "Static" [] "" none [.mk "Node" [("name", base_link)] "" none []]

/-- Embeds `add_endeffector_node_`: the `Endeffector` element with its
`base`/`tcp`/`gcp` references, the `Preshape` template (every joint at
0.0 radians), the `Static` node referencing the base link, and one
`Actor` group per classifier key. -/
def add_endeffector_node (hand_name_upper hand_base hand_tcp hand_gcp base_link : String)
    (links_ joints_ : List String) : XmlNode :=
  .mk "Endeffector"
    [("name", hand_name_upper), ("base", hand_base), ("tcp", hand_tcp), ("gcp", hand_gcp)]
    "" (some "This node is for Simox (e.g., GraspPlanner in Simox)!")
    (preshapeXml joints_
      :: staticXml base_link
      :: (get_actors joints_).map (actorXml links_ joints_))

/-- Embeds `add_hand_base_node_`: the synthetic base `RobotNode` with `Child`
references to the tcp, the gcp and the first link. -/
def add_hand_base_node (hand_base hand_tcp hand_gcp base_link : String) : XmlNode :=
  .mk "RobotNode" [("name", hand_base)] "" none
    [childRefXml hand_tcp, childRefXml hand_gcp, childRefXml base_link]

/-- Embeds `add_hand_tcp_node_`: the synthetic tool-center-point node with its
hardcoded translation. -/
def add_hand_tcp_node (hand_tcp : String) : XmlNode :=
  .mk "RobotNode" [("name", hand_tcp)] ""
    (some "Translation values were set manually!")
    [.mk "Transform" [] "" none
      [translationXml (mkRat (-1) 100) (mkRat (-35) 1000) (mkRat 7 100)]]

/-- Embeds `add_hand_gcp_node_`: the synthetic grasp-center-point node with
its hardcoded translation and rotation. -/
def add_hand_gcp_node (hand_gcp : String) : XmlNode :=
  .mk "RobotNode" [("name", hand_gcp)] ""
    (some "Translation and rollpitchyaw values were set manually!")
    [.mk "Transform" [] "" none
      [translationXml (mkRat (-1) 100) (mkRat (-35) 1000) (mkRat 7 100),
       rpyXml 1 0 0]]

/-- Embeds `add_hand_joints_node_`: the `RobotNodeSet` summary listing every
joint of the sorted `joints_` vector. -/
def add_hand_joints_node (hand_name_upper : String) (joints_ : List String) : XmlNode :=
  .mk "RobotNodeSet" [("name", hand_name_upper ++ " Joints")] ""
    (some "This node is for Simox (e.g., GraspPlanner in Simox)!")
    (joints_.map fun jn => .mk "Node" [("name", jn)] "" none [])

/-- Embeds `UrdfToSimoxXml::write_xml` over an already-constructed model:
parse the hand identity out of the output filename (fatal
`MalformedOutputName` unless it splits into exactly two `.`-parts),
then assemble the `Robot` document: base/tcp/gcp synthetic nodes, the
recursive link/joint section starting at the first link, the
end-effector template and the joint summary.  `joints_` is the
constructor's globally name-sorted joint vector. -/
def write_xml (env : EmitEnv) (t : LinkTree) (simox_xml_filename : String) :
    Except SimoxError XmlNode :=
  let parts := strSplitOn "." simox_xml_filename
  if parts.length = 2 then
    let hand_name := parts.headD ""
    let hand_name_upper := strUpper hand_name
    let hand_name_lower := strLower hand_name
    let hand_base := hand_name_lower ++ "_hand_base"
    let hand_tcp := hand_name_lower ++ "_hand_tcp"
    let hand_gcp := hand_name_lower ++ "_hand_gcp"
    let base_link := rootNameOf t
    let joints_ := sortByName id (jointNames t)
    match emitLink env t with
    | .error e => .error e
    | .ok emitted =>
      .ok (.mk "Robot" [("Type", hand_name_upper), ("RootNode", hand_base)] "" none
        (add_hand_base_node hand_base hand_tcp hand_gcp base_link
          :: add_hand_tcp_node hand_tcp
          :: add_hand_gcp_node hand_gcp
          :: emitted
          ++ [add_endeffector_node hand_name_upper hand_base hand_tcp hand_gcp base_link
                (linkNames t) joints_,
              add_hand_joints_node hand_name_upper joints_]))
  else .error .MalformedOutputName

/-! ### Statement helpers and concrete runs used by the theorems -/

/-- The lower-case hand identity extracted from an output filename. -/
def handLower (simox_xml_filename : String) : String :=
  strLower ((strSplitOn "." simox_xml_filename).headD "")

/-- An empty placeholder element. -/
def xmlDefault : XmlNode := .mk "" [] "" none []

/-- Does a root-level element carry a `Joint` payload child, i.e. is it
an emitted joint node? -/
def hasJointChild (nd : XmlNode) : Bool :=
  nd.children.any fun c => c.tag == "Joint"

/-- The origin pose used by the concrete scenarios. -/
def pose0 : Pose := ⟨0, 0, 0, 0, 0, 0⟩

/-- Benign external collaborators: package resolution to a fixed
directory, a silent mesh tool, exit code 0, output directory `/out`. -/
def demoEnv : EmitEnv := ⟨fun _ => "/opt/pkgs/dms_description", fun _ => [], 0, "/out"⟩

/-- The specification's scenario model: two links joined by one
rotational joint with axis (0,0,1) and limits [-1.57, 1.57]. -/
def t3 : LinkTree :=
  .mk "dms_palm" ⟨pose0, .mesh "package://dms_description/meshes/palm.STL"⟩
    (.cons ⟨"dms_joint1", .revolute, pose0, 0, 0, 1, ⟨mkRat (-157) 100, mkRat 157 100⟩⟩
      (.mk "dms_finger" ⟨pose0, .mesh "package://dms_description/meshes/finger.STL"⟩ .nil)
      .nil)

/-- The document produced for the scenario `t3` with output filename
`dms.xml`. -/
def demo3doc : XmlNode :=
  match write_xml demoEnv t3 "dms.xml" with
  | .ok d => d
  | .error _ => xmlDefault

/-- A one-link model whose single link is named `dms_hand_tcp`: a legal
kinematic tree (unique link names, unique joint names) that collides
with a synthetic frame name. -/
def tClash : LinkTree :=
  .mk "dms_hand_tcp" ⟨pose0, .mesh "package://dms_description/meshes/palm.STL"⟩ .nil

/-- The document produced for the colliding model. -/
def demoClashDoc : XmlNode :=
  match write_xml demoEnv tClash "dms.xml" with
  | .ok d => d
  | .error _ => xmlDefault

/-- Collaborators whose mesh tool prints the fatal diagnostic line. -/
def failToolEnv : EmitEnv :=
  ⟨fun _ => "/opt/pkgs/dms_description",
   fun _ => ["ALOG: mesh /opt/pkgs/dms_description/meshes/m.stl loaded has 0 vn 120 fn"],
   0, "/out"⟩

/-- The mesh-conversion run on the failing tool output. -/
def failScanRun : ConvRun := convert_mesh failToolEnv "package://p/meshes/m.stl"

/-- The same conversion against the silent tool. -/
def okScanRun : ConvRun := convert_mesh demoEnv "package://p/meshes/m.stl"

/-- A mesh reference that contains, but does not start with, the
package scheme marker. -/
def oddRef : String := "xpackage://p/m.stl"

/-- The mesh-conversion run on that reference. -/
def oddRefRun : ConvRun := convert_mesh demoEnv oddRef

mutual
/-- The `name` attributes of the `RobotNode`s the tree emitter produces
for a subtree, in emission order (link first, then, joint by joint, the
joint node followed by its child subtree). -/
def emitNamesL : LinkTree → List String
  | .mk n _ cs => n :: emitNamesJ cs
/-- Joint-list part of `emitNamesL`. -/
def emitNamesJ : JointList → List String
  | .nil => []
  | .cons j c rest => j.name :: (emitNamesL c ++ emitNamesJ rest)
end

mutual
/-- The `Child` reference names the tree emitter produces for a
subtree: the link node references its outgoing joints, each joint node
references its child link. -/
def emitRefsL : LinkTree → List String
  | .mk _ _ cs => jlNames cs ++ emitRefsJ cs
/-- Joint-list part of `emitRefsL`. -/
def emitRefsJ : JointList → List String
  | .nil => []
  | .cons _ c rest => rootNameOf c :: (emitRefsL c ++ emitRefsJ rest)
end

/-- The upper-case hand identity extracted from an output filename. -/
def handUpper (simox_xml_filename : String) : String :=
  strUpper ((strSplitOn "." simox_xml_filename).headD "")

/-- The document `write_xml` assembles on success, as a function of the
filename-derived names, the model and the emitted link/joint section. -/
def docFor (t : LinkTree) (f : String) (emitted : List XmlNode) : XmlNode :=
  .mk "Robot" [("Type", handUpper f), ("RootNode", handLower f ++ "_hand_base")] "" none
    (add_hand_base_node (handLower f ++ "_hand_base") (handLower f ++ "_hand_tcp")
        (handLower f ++ "_hand_gcp") (rootNameOf t)
      :: add_hand_tcp_node (handLower f ++ "_hand_tcp")
      :: add_hand_gcp_node (handLower f ++ "_hand_gcp")
      :: emitted
      ++ [add_endeffector_node (handUpper f) (handLower f ++ "_hand_base")
            (handLower f ++ "_hand_tcp") (handLower f ++ "_hand_gcp") (rootNameOf t)
            (linkNames t) (sortByName id (jointNames t)),
          add_hand_joints_node (handUpper f) (sortByName id (jointNames t))])

/-- The names defined by the document built for model `t` and output
filename `f`: the three synthetic frames, then every link, then every
joint. -/
def namePool (t : LinkTree) (f : String) : List String :=
  (handLower f ++ "_hand_base") :: (handLower f ++ "_hand_tcp")
    :: (handLower f ++ "_hand_gcp") :: (linkNames t ++ jointNames t)

/-! ### Basic facts about the builders -/

theorem tag_childRefXml (n : String) : (childRefXml n).tag = "Child" := rfl

theorem nameAttr_childRefXml (n : String) : nameAttr (childRefXml n) = n := rfl

theorem tag_mkLinkXml (n : String) (o : Pose) (v c : String) (js : List String) :
    (mkLinkXml n o v c js).tag = "RobotNode" := rfl

theorem nameAttr_mkLinkXml (n : String) (o : Pose) (v c : String) (js : List String) :
    nameAttr (mkLinkXml n o v c js) = n := rfl

theorem tag_mkJointXml (j : JointInfo) (cn : String) (p : XmlNode) :
    (mkJointXml j cn p).tag = "RobotNode" := rfl

theorem nameAttr_mkJointXml (j : JointInfo) (cn : String) (p : XmlNode) :
    nameAttr (mkJointXml j cn p) = j.name := rfl

/-- The `Node` member names of a mapped member-entry list. -/
theorem flatMap_node_names (g : String → XmlNode)
    (hentry : ∀ s, nodeEntry (g s) = [s]) (l : List String) :
    (l.map g).flatMap nodeEntry = l := by
  induction l with
  | nil => rfl
  | cons a l ih => simp [hentry, ih]

theorem childEntry_childRefXml (n : String) : childEntry (childRefXml n) = [n] := rfl

theorem tag_transformXml (p : Pose) : (transformXml p).tag = "Transform" := rfl

/-- An element that is not a `Child` reference contributes no `Child`
reference name. -/
theorem childEntry_of_ne (nd : XmlNode) (h : nd.tag ≠ "Child") : childEntry nd = [] := by
  simp [childEntry, h]

/-- The `Child` reference names of a mapped reference list. -/
theorem flatMap_child_names (l : List String) :
    (l.map childRefXml).flatMap childEntry = l := by
  induction l with
  | nil => rfl
  | cons a l ih => simp [childEntry_childRefXml, ih]

/-- A link node's `Child` references are exactly its outgoing joints. -/
theorem childRefNames_mkLinkXml (n : String) (o : Pose) (v c : String) (js : List String) :
    childRefNames (mkLinkXml n o v c js) = js := by
  have h : childRefNames (mkLinkXml n o v c js) = (js.map childRefXml).flatMap childEntry := rfl
  rw [h, flatMap_child_names]

/-- A joint node's single `Child` reference is the child link, as long
as the payload carries the `Joint` tag. -/
theorem childRefNames_mkJointXml (j : JointInfo) (cn : String) (p : XmlNode)
    (hp : p.tag = "Joint") : childRefNames (mkJointXml j cn p) = [cn] := by
  have h : childRefNames (mkJointXml j cn p)
      = childEntry (transformXml j.origin) ++ (childEntry p ++ (childEntry (childRefXml cn) ++ [])) := rfl
  rw [h, childEntry_of_ne (transformXml j.origin) (by rw [tag_transformXml]; decide),
    childEntry_of_ne p (by rw [hp]; decide), childEntry_childRefXml]
  rfl

/-- The payload built for a supported joint always carries the `Joint`
tag. -/
theorem mkJointPayload_tag (j : JointInfo) (p : XmlNode) (h : mkJointPayload j = .ok p) :
    p.tag = "Joint" := by
  unfold mkJointPayload at h
  cases hk : j.kind <;> rw [hk] at h <;> first
    | (injection h with h; subst h; rfl)
    | cases h

mutual
/-- Success characterisation of the tree emitter on a link subtree:
every emitted element is a `RobotNode`, their names follow
`emitNamesL`, and their `Child` references follow `emitRefsL`. -/
theorem emitLink_ok : ∀ (env : EmitEnv) (t : LinkTree) (res : List XmlNode),
    emitLink env t = Except.ok res →
    (∀ nd ∈ res, nd.tag = "RobotNode") ∧ res.map nameAttr = emitNamesL t ∧
      res.flatMap childRefNames = emitRefsL t
  | env, .mk n v cs, res, h => by
    rw [emitLink] at h
    split at h
    case _ fname hg =>
      split at h
      case _ e he => cases h
      case _ visPath hv =>
        split at h
        case _ e he => cases h
        case _ colPath hc =>
          split at h
          case _ e he => cases h
          case _ rest hr =>
            injection h with h
            subst h
            obtain ⟨h1, h2, h3⟩ := emitJoints_ok env cs rest hr
            refine ⟨?_, ?_, ?_⟩
            · intro nd hnd
              rcases List.mem_cons.mp hnd with h' | h'
              · subst h'; rfl
              · exact h1 nd h'
            · simp [emitNamesL, nameAttr_mkLinkXml, h2]
            · simp [emitRefsL, List.flatMap_cons, childRefNames_mkLinkXml, h3]
    case _ hg => cases h
/-- Success characterisation of the tree emitter on a joint list. -/
theorem emitJoints_ok : ∀ (env : EmitEnv) (cs : JointList) (res : List XmlNode),
    emitJoints env cs = Except.ok res →
    (∀ nd ∈ res, nd.tag = "RobotNode") ∧ res.map nameAttr = emitNamesJ cs ∧
      res.flatMap childRefNames = emitRefsJ cs
  | env, .nil, res, h => by
    rw [emitJoints] at h
    injection h with h
    subst h
    exact ⟨by simp, rfl, rfl⟩
  | env, .cons j c rest, res, h => by
    rw [emitJoints] at h
    split at h
    case _ e hp => cases h
    case _ payload hp =>
      split at h
      case _ e hsub => cases h
      case _ sub hsub =>
        split at h
        case _ e hmore => cases h
        case _ more hmore =>
          injection h with h
          subst h
          obtain ⟨a1, a2, a3⟩ := emitLink_ok env c sub hsub
          obtain ⟨b1, b2, b3⟩ := emitJoints_ok env rest more hmore
          have hptag := mkJointPayload_tag j payload hp
          refine ⟨?_, ?_, ?_⟩
          · intro nd hnd
            rcases List.mem_cons.mp hnd with h' | h'
            · subst h'; rfl
            · rcases List.mem_append.mp h' with h'' | h''
              · exact a1 nd h''
              · exact b1 nd h''
          · simp [emitNamesJ, nameAttr_mkJointXml, a2, b2]
          · simp [emitRefsJ, List.flatMap_cons, List.flatMap_append,
              childRefNames_mkJointXml j (rootNameOf c) payload hptag, a3, b3]
end

mutual
/-- Multiplicity of any name among the emitted `RobotNode` names of a
subtree equals its multiplicity among the subtree's link and joint
names. -/
theorem count_emitNamesL : ∀ (a : String) (t : LinkTree),
    (emitNamesL t).count a = (linkNames t).count a + (jointNames t).count a
  | a, .mk n v cs => by
    have h := count_emitNamesJ a cs
    simp only [emitNamesL, linkNames, jointNames, List.count_cons, h]
    omega
/-- Joint-list part of `count_emitNamesL`. -/
theorem count_emitNamesJ : ∀ (a : String) (cs : JointList),
    (emitNamesJ cs).count a = (linkNamesJ cs).count a + (jointNamesJ cs).count a
  | a, .nil => by simp [emitNamesJ, linkNamesJ, jointNamesJ]
  | a, .cons j c rest => by
    have h1 := count_emitNamesL a c
    have h2 := count_emitNamesJ a rest
    simp only [emitNamesJ, linkNamesJ, jointNamesJ, List.count_cons, List.count_append, h1, h2]
    omega
end

/-- The emitted `RobotNode` names are a permutation of the link names
followed by the joint names. -/
theorem emitNamesL_perm (t : LinkTree) :
    List.Perm (emitNamesL t) (linkNames t ++ jointNames t) := by
  refine List.perm_iff_count.mpr fun a => ?_
  rw [List.count_append, count_emitNamesL]

mutual
/-- A tree with `N` links has `N - 1` joints. -/
theorem length_linkNames : ∀ t : LinkTree, (linkNames t).length = (jointNames t).length + 1
  | .mk n v cs => by
    have h := length_linkNamesJ cs
    simp only [linkNames, jointNames, List.length_cons, h]
/-- Joint-list part of `length_linkNames`. -/
theorem length_linkNamesJ : ∀ cs : JointList, (linkNamesJ cs).length = (jointNamesJ cs).length
  | .nil => rfl
  | .cons j c rest => by
    have h1 := length_linkNames c
    have h2 := length_linkNamesJ rest
    simp only [linkNamesJ, jointNamesJ, List.length_append, List.length_cons, h1, h2]
end

/-- A link's own name is among its subtree's link names. -/
theorem rootNameOf_mem (t : LinkTree) : rootNameOf t ∈ linkNames t := by
  cases t with
  | mk n v cs => simp [rootNameOf, linkNames]

/-- A link's direct child-joint names are among its subtree's joint
names. -/
theorem jlNames_sub : ∀ (cs : JointList) (x : String), x ∈ jlNames cs → x ∈ jointNamesJ cs
  | .nil, x, hx => by simp [jlNames] at hx
  | .cons j c rest, x, hx => by
    rw [jlNames] at hx
    rcases List.mem_cons.mp hx with h | h
    · simp [jointNamesJ, h]
    · simp [jointNamesJ, jlNames_sub rest x h]

mutual
/-- Every `Child` reference emitted for a subtree names a link or a
joint of that subtree. -/
theorem emitRefsL_sub : ∀ (t : LinkTree) (x : String), x ∈ emitRefsL t →
    x ∈ linkNames t ∨ x ∈ jointNames t
  | .mk n v cs, x, hx => by
    rw [emitRefsL] at hx
    rcases List.mem_append.mp hx with h | h
    · exact Or.inr (by simpa [jointNames] using jlNames_sub cs x h)
    · rcases emitRefsJ_sub cs x h with h' | h'
      · exact Or.inl (by simp [linkNames, h'])
      · exact Or.inr (by simpa [jointNames] using h')
/-- Joint-list part of `emitRefsL_sub`. -/
theorem emitRefsJ_sub : ∀ (cs : JointList) (x : String), x ∈ emitRefsJ cs →
    x ∈ linkNamesJ cs ∨ x ∈ jointNamesJ cs
  | .cons j c rest, x, hx => by
    rw [emitRefsJ] at hx
    rcases List.mem_cons.mp hx with h | h
    · exact Or.inl (by simp [linkNamesJ, h ▸ rootNameOf_mem c])
    · rcases List.mem_append.mp h with h' | h'
      · rcases emitRefsL_sub c x h' with h'' | h''
        · exact Or.inl (by simp [linkNamesJ, h''])
        · exact Or.inr (by simp [jointNamesJ, h''])
      · rcases emitRefsJ_sub rest x h' with h'' | h''
        · exact Or.inl (by simp [linkNamesJ, h''])
        · exact Or.inr (by simp [jointNamesJ, h''])
end

/-- Inserting keeps a permutation with consing. -/
theorem insertByName_perm (f : α → String) (x : α) (l : List α) :
    List.Perm (insertByName f x l) (x :: l) := by
  induction l with
  | nil => simp [insertByName]
  | cons y ys ih =>
    simp only [insertByName]
    split
    · exact List.Perm.refl _
    · exact (List.Perm.cons y ih).trans (List.Perm.swap x y ys)

/-- The joint sort is a permutation of its input. -/
theorem sortByName_perm (f : α → String) (l : List α) :
    List.Perm (sortByName f l) l := by
  induction l with
  | nil => simp [sortByName]
  | cons x xs ih =>
    exact (insertByName_perm f x (sortByName f xs)).trans (List.Perm.cons x ih)

/-- When every element of a list is a `RobotNode`, the defined names
are exactly the element names. -/
theorem robotNamesOf_all (l : List XmlNode) (h : ∀ nd ∈ l, nd.tag = "RobotNode") :
    robotNamesOf l = l.map nameAttr := by
  induction l with
  | nil => rfl
  | cons nd l ih =>
    simp only [robotNamesOf, List.flatMap_cons, List.map_cons]
    rw [show robotEntry nd = [nameAttr nd] by
        simp [robotEntry, h nd (List.mem_cons_self nd l)]]
    have := ih fun x hx => h x (List.mem_cons_of_mem nd hx)
    simp only [robotNamesOf] at this
    simp [this]

/-- Success inversion of `write_xml`: the filename parsed into exactly
two parts, the tree emitter succeeded, and the document is the
assembly of the synthetic nodes, the emitted section, the end-effector
and the joint summary. -/
theorem write_xml_ok (env : EmitEnv) (t : LinkTree) (f : String) (doc : XmlNode)
    (h : write_xml env t f = .ok doc) :
    ∃ emitted, emitLink env t = .ok emitted ∧ (strSplitOn "." f).length = 2 ∧
      doc = docFor t f emitted := by
  simp only [write_xml] at h
  split at h
  case isTrue hlen =>
    split at h
    case _ e he => cases h
    case _ emitted he =>
      injection h with h
      exact ⟨emitted, he, hlen, h.symm⟩
  case isFalse hlen => cases h

/-- Pointwise equal functions flat-map equally. -/
theorem flatMap_ext (l : List α) (f g : α → List β) (h : ∀ x ∈ l, f x = g x) :
    l.flatMap f = l.flatMap g := by
  induction l with
  | nil => rfl
  | cons a l ih =>
    simp only [List.flatMap_cons, h a (List.mem_cons_self a l)]
    rw [ih fun x hx => h x (List.mem_cons_of_mem a hx)]

/-- A `RobotNode`'s references are its `Child` references. -/
theorem refsOfChild_robot (nd : XmlNode) (h : nd.tag = "RobotNode") :
    refsOfChild nd = childRefNames nd := by
  simp [refsOfChild, h]

/-- The `Actor` group members: the links, then the joints, whose name
starts with the group character. -/
theorem nodeMemberNames_actorXml (links_ joints_ : List String) (c : Char) :
    nodeMemberNames (actorXml links_ joints_ c)
      = links_.filter (fun l => strFront l = c) ++ joints_.filter (fun l => strFront l = c) := by
  have h : nodeMemberNames (actorXml links_ joints_ c)
      = ((links_.filter (fun l => strFront l = c)).map actorMemberXml
          ++ (joints_.filter (fun l => strFront l = c)).map actorMemberXml).flatMap nodeEntry := rfl
  rw [h, List.flatMap_append, flatMap_node_names actorMemberXml (fun s => rfl),
    flatMap_node_names actorMemberXml (fun s => rfl)]

/-- The `Preshape` members are exactly the joint list. -/
theorem nodeMemberNames_preshape (joints_ : List String) :
    nodeMemberNames (preshapeXml joints_) = joints_ :=
  flatMap_node_names preshapeEntryXml (fun _ => rfl) joints_

/-- The `Static` node has the single base-link member. -/
theorem nodeMemberNames_static (bl : String) : nodeMemberNames (staticXml bl) = [bl] := rfl

/-- References of the end-effector element, unfolded one level. -/
theorem refsOfChild_endeff (u hb ht hg bl : String) (links_ joints_ : List String) :
    refsOfChild (add_endeffector_node u hb ht hg bl links_ joints_)
      = [hb, ht, hg] ++ (nodeMemberNames (preshapeXml joints_)
          ++ (nodeMemberNames (staticXml bl)
            ++ ((get_actors joints_).map (actorXml links_ joints_)).flatMap nodeMemberNames)) := rfl

/-- Every end-effector reference is a synthetic frame, the base link,
a link name or a joint name. -/
theorem refsOfChild_endeff_sub (u hb ht hg bl : String) (links_ joints_ : List String) :
    ∀ x ∈ refsOfChild (add_endeffector_node u hb ht hg bl links_ joints_),
      x = hb ∨ x = ht ∨ x = hg ∨ x = bl ∨ x ∈ links_ ∨ x ∈ joints_ := by
  intro x hx
  rw [refsOfChild_endeff, nodeMemberNames_preshape, nodeMemberNames_static] at hx
  rcases List.mem_append.mp hx with h | h
  · rcases List.mem_cons.mp h with h' | h'
    · exact Or.inl h'
    rcases List.mem_cons.mp h' with h'' | h''
    · exact Or.inr (Or.inl h'')
    rcases List.mem_cons.mp h'' with h3 | h3
    · exact Or.inr (Or.inr (Or.inl h3))
    · cases h3
  · rcases List.mem_append.mp h with h' | h'
    · exact Or.inr (Or.inr (Or.inr (Or.inr (Or.inr h'))))
    rcases List.mem_append.mp h' with h'' | h''
    · rcases List.mem_cons.mp h'' with h3 | h3
      · exact Or.inr (Or.inr (Or.inr (Or.inl h3)))
      · cases h3
    · rcases List.mem_flatMap.mp h'' with ⟨nd, hnd, hmem⟩
      rcases List.mem_map.mp hnd with ⟨c, hc, rfl⟩
      rw [nodeMemberNames_actorXml] at hmem
      rcases List.mem_append.mp hmem with h4 | h4
      · exact Or.inr (Or.inr (Or.inr (Or.inr (Or.inl (List.mem_of_mem_filter h4)))))
      · exact Or.inr (Or.inr (Or.inr (Or.inr (Or.inr (List.mem_of_mem_filter h4)))))

/-- Member names of the `RobotNodeSet` summary. -/
theorem nodeMemberNames_hand_joints (u : String) (joints_ : List String) :
    nodeMemberNames (add_hand_joints_node u joints_) = joints_ :=
  flatMap_node_names (fun jn => XmlNode.mk "Node" [("name", jn)] "" none [])
    (fun _ => rfl) joints_

/-- References of the `RobotNodeSet` summary element. -/
theorem refsOfChild_hand_joints (u : String) (joints_ : List String) :
    refsOfChild (add_hand_joints_node u joints_) = joints_ :=
  nodeMemberNames_hand_joints u joints_

theorem robotNamesOf_cons (nd : XmlNode) (l : List XmlNode) :
    robotNamesOf (nd :: l) = robotEntry nd ++ robotNamesOf l := rfl

theorem robotNamesOf_append (l1 l2 : List XmlNode) :
    robotNamesOf (l1 ++ l2) = robotNamesOf l1 ++ robotNamesOf l2 := by
  simp [robotNamesOf]

theorem robotEntry_base (hb ht hg bl : String) :
    robotEntry (add_hand_base_node hb ht hg bl) = [hb] := rfl

theorem robotEntry_tcp (ht : String) : robotEntry (add_hand_tcp_node ht) = [ht] := rfl

theorem robotEntry_gcp (hg : String) : robotEntry (add_hand_gcp_node hg) = [hg] := rfl

theorem robotEntry_endeff (u hb ht hg bl : String) (links_ joints_ : List String) :
    robotEntry (add_endeffector_node u hb ht hg bl links_ joints_) = [] := rfl

theorem robotEntry_hand_joints (u : String) (joints_ : List String) :
    robotEntry (add_hand_joints_node u joints_) = [] := rfl

/-- The `RobotNode` names the assembled document defines: the three
synthetic frames followed by the emitted link/joint node names. -/
theorem robotNames_docFor (t : LinkTree) (f : String) (emitted : List XmlNode)
    (hall : ∀ nd ∈ emitted, nd.tag = "RobotNode") :
    robotNamesOf (docFor t f emitted).children
      = (handLower f ++ "_hand_base") :: (handLower f ++ "_hand_tcp")
        :: (handLower f ++ "_hand_gcp") :: emitted.map nameAttr := by
  simp only [docFor, XmlNode.children, robotNamesOf_cons, robotNamesOf_append,
    robotEntry_base, robotEntry_tcp, robotEntry_gcp]
  rw [robotNamesOf_all emitted hall]
  simp [robotNamesOf, robotEntry_endeff, robotEntry_hand_joints]

theorem refsOfChild_base (hb ht hg bl : String) :
    refsOfChild (add_hand_base_node hb ht hg bl) = [ht, hg, bl] := rfl

theorem refsOfChild_tcp (ht : String) : refsOfChild (add_hand_tcp_node ht) = [] := rfl

theorem refsOfChild_gcp (hg : String) : refsOfChild (add_hand_gcp_node hg) = [] := rfl

set_option maxHeartbeats 1000000 in
/-- Every reference of the assembled document names something in the
document's name pool. -/
theorem refs_docFor_sub (env : EmitEnv) (t : LinkTree) (f : String) (emitted : List XmlNode)
    (hok : emitLink env t = Except.ok emitted) :
    ∀ x ∈ refsOf (docFor t f emitted), x ∈ namePool t f := by
  obtain ⟨hall, _hnames, hrefs⟩ := emitLink_ok env t emitted hok
  intro x hx
  simp only [refsOf, docFor, XmlNode.children, List.flatMap_cons, List.flatMap_append,
    refsOfChild_base, refsOfChild_tcp, refsOfChild_gcp, refsOfChild_hand_joints,
    List.flatMap_nil, List.append_nil, List.nil_append] at hx
  have he : emitted.flatMap refsOfChild = emitRefsL t := by
    rw [flatMap_ext emitted refsOfChild childRefNames
      (fun nd hnd => refsOfChild_robot nd (hall nd hnd)), hrefs]
  rw [he] at hx
  have hjm : x ∈ sortByName id (jointNames t) → x ∈ jointNames t := fun hy =>
    (sortByName_perm id (jointNames t)).mem_iff.mp hy
  have hbl : x = rootNameOf t → x ∈ linkNames t := fun h => h ▸ rootNameOf_mem t
  have hrl : x ∈ emitRefsL t → x ∈ linkNames t ∨ x ∈ jointNames t := emitRefsL_sub t x
  have hend : x ∈ refsOfChild (add_endeffector_node (handUpper f)
      (handLower f ++ "_hand_base") (handLower f ++ "_hand_tcp")
      (handLower f ++ "_hand_gcp") (rootNameOf t) (linkNames t)
      (sortByName id (jointNames t))) →
      x = handLower f ++ "_hand_base" ∨ x = handLower f ++ "_hand_tcp"
        ∨ x = handLower f ++ "_hand_gcp" ∨ x = rootNameOf t
        ∨ x ∈ linkNames t ∨ x ∈ sortByName id (jointNames t) :=
    refsOfChild_endeff_sub _ _ _ _ _ _ _ x
  simp only [namePool, List.mem_cons, List.mem_append]
  simp only [List.mem_cons, List.mem_append] at hx
  tauto

/-- C2: for every well-formed kinematic tree (the `LinkTree` type is
exactly the class of trees with `N` links and `N - 1` joints; the
fourth conjunct records `N - 1` explicitly), a successful conversion
emits a document whose `RobotNode` name sequence is a permutation of
the 3 synthetic frame names plus one name per link and one per joint
(i.e. exactly `N` link-nodes and `N - 1` joint-nodes in the recursive
hand section plus exactly 3 synthetic nodes), together with exactly one
`Endeffector` element and exactly one `RobotNodeSet` joint-group
element, the root's children numbering `N + (N - 1) + 5` in total. -/
theorem c2_node_counts (env : EmitEnv) (t : LinkTree) (f : String) (doc : XmlNode)
    (h : write_xml env t f = Except.ok doc) :
    List.Perm (robotNamesOf doc.children) (namePool t f)
    ∧ doc.children.countP (fun nd => nd.tag == "Endeffector") = 1
    ∧ doc.children.countP (fun nd => nd.tag == "RobotNodeSet") = 1
    ∧ (linkNames t).length = (jointNames t).length + 1
    ∧ doc.children.length = ((linkNames t).length + (jointNames t).length) + 5 := by
  obtain ⟨emitted, hok, hlen, rfl⟩ := write_xml_ok env t f doc h
  obtain ⟨hall, hnames, hrefs⟩ := emitLink_ok env t emitted hok
  have hperm : List.Perm (robotNamesOf (docFor t f emitted).children) (namePool t f) := by
    rw [robotNames_docFor t f emitted hall, hnames]
    exact List.Perm.cons _ (List.Perm.cons _ (List.Perm.cons _ (emitNamesL_perm t)))
  have hzE : emitted.countP (fun nd => nd.tag == "Endeffector") = 0 :=
    List.countP_eq_zero.mpr fun nd hnd => by simp [hall nd hnd]
  have hzS : emitted.countP (fun nd => nd.tag == "RobotNodeSet") = 0 :=
    List.countP_eq_zero.mpr fun nd hnd => by simp [hall nd hnd]
  have hlen2 : emitted.length = (linkNames t).length + (jointNames t).length := by
    have h1 : emitted.length = (emitNamesL t).length := by
      rw [← hnames, List.length_map]
    rw [h1, (emitNamesL_perm t).length_eq, List.length_append]
  refine ⟨hperm, ?_, ?_, length_linkNames t, ?_⟩
  · simp only [docFor, XmlNode.children, List.countP_cons, List.countP_append, hzE]
    simp [add_hand_base_node, add_hand_tcp_node, add_hand_gcp_node,
      add_endeffector_node, add_hand_joints_node, XmlNode.tag, List.countP_cons]
  · simp only [docFor, XmlNode.children, List.countP_cons, List.countP_append, hzS]
    simp [add_hand_base_node, add_hand_tcp_node, add_hand_gcp_node,
      add_endeffector_node, add_hand_joints_node, XmlNode.tag, List.countP_cons]
  · simp only [docFor, XmlNode.children, List.length_cons, List.length_append,
      List.length_cons, List.length_nil, hlen2]

/-- C2 witness: the theorem applied to the concrete 2-link scenario. -/
theorem c2_witness :
    write_xml demoEnv t3 "dms.xml" = Except.ok demo3doc
    ∧ (List.Perm (robotNamesOf demo3doc.children) (namePool t3 "dms.xml")
      ∧ demo3doc.children.countP (fun nd => nd.tag == "Endeffector") = 1
      ∧ demo3doc.children.countP (fun nd => nd.tag == "RobotNodeSet") = 1
      ∧ (linkNames t3).length = (jointNames t3).length + 1
      ∧ demo3doc.children.length = (((linkNames t3).length + (jointNames t3).length) + 5)) :=
  ⟨rfl, c2_node_counts demoEnv t3 "dms.xml" demo3doc rfl⟩

/-- C1 (amended): when the link names, the joint names and the three
synthetic frame names derived from the output filename are pairwise
distinct — `namePool` has no duplicates — every node reference of the
emitted document resolves to a `RobotNode` name defined exactly once in
the document. -/
theorem c1_referential_integrity (env : EmitEnv) (t : LinkTree) (f : String) (doc : XmlNode)
    (h : write_xml env t f = Except.ok doc) (hnodup : (namePool t f).Nodup) :
    ∀ x ∈ refsOf doc, (robotNamesOf doc.children).count x = 1 := by
  obtain ⟨emitted, hok, hlen, rfl⟩ := write_xml_ok env t f doc h
  obtain ⟨hall, hnames, hrefs⟩ := emitLink_ok env t emitted hok
  intro x hx
  have hperm : List.Perm (robotNamesOf (docFor t f emitted).children) (namePool t f) := by
    rw [robotNames_docFor t f emitted hall, hnames]
    exact List.Perm.cons _ (List.Perm.cons _ (List.Perm.cons _ (emitNamesL_perm t)))
  rw [hperm.count_eq]
  exact List.count_eq_one_of_mem hnodup (refs_docFor_sub env t f emitted hok x hx)

/-- C1 witness: on the 2-link scenario every name is distinct and the
reference `dms_palm` (the base node's third `Child`) resolves to a
uniquely defined node. -/
theorem c1_witness :
    (namePool t3 "dms.xml").Nodup
    ∧ "dms_palm" ∈ refsOf demo3doc
    ∧ (robotNamesOf demo3doc.children).count "dms_palm" = 1 :=
  ⟨by decide, by decide,
    c1_referential_integrity demoEnv t3 "dms.xml" demo3doc rfl (by decide) "dms_palm" (by decide)⟩

/-- C1 counterexample: a legal one-link model whose link is named
`dms_hand_tcp` collides with the synthetic tcp frame: the base node's
first `Child` reference `dms_hand_tcp` is then defined twice in the
emitted document, refuting the claim as universally stated. -/
theorem c1_counterexample :
    write_xml demoEnv tClash "dms.xml" = Except.ok demoClashDoc
    ∧ "dms_hand_tcp" ∈ refsOf demoClashDoc
    ∧ (robotNamesOf demoClashDoc.children).count "dms_hand_tcp" = 2 :=
  ⟨rfl, by decide, by decide⟩

/-- C3: the 2-link / 1-rotational-joint scenario (axis (0,0,1), limits
[-1.57, 1.57]) converted as `dms.xml` yields a document whose root
carries `Type="DMS"`, whose base node references `dms_hand_tcp`,
`dms_hand_gcp` and the root link `dms_palm`, and which contains exactly
one joint node, carrying axis `0.000/0.000/1.000` and limits
`-1.570/1.570`. -/
theorem c3_dms_scenario :
    write_xml demoEnv t3 "dms.xml" = Except.ok demo3doc
    ∧ demo3doc.tag = "Robot"
    ∧ demo3doc.attrs.lookup "Type" = some "DMS"
    ∧ childRefNames (demo3doc.children.headD xmlDefault)
        = ["dms_hand_tcp", "dms_hand_gcp", "dms_palm"]
    ∧ demo3doc.children.filter hasJointChild
        = [XmlNode.mk "RobotNode" [("name", "dms_joint1")] "" none
            [XmlNode.mk "Transform" [] "" none
              [XmlNode.mk "Translation"
                [("x", "0.000"), ("y", "0.000"), ("z", "0.000"), ("unitsLength", "m")] "" none [],
               XmlNode.mk "rollpitchyaw"
                [("roll", "0.000"), ("pitch", "0.000"), ("yaw", "0.000"), ("unitsAngle", "radian")]
                "" none []],
             XmlNode.mk "Joint" [("type", "revolute")] "" none
              [XmlNode.mk "Axis" [("x", "0.000"), ("y", "0.000"), ("z", "1.000")] "" none [],
               XmlNode.mk "Limits" [("unit", "radian"), ("lo", "-1.570"), ("hi", "1.570")]
                "" none []],
             XmlNode.mk "Child" [("name", "dms_finger")] "" none []]] :=
  ⟨rfl, rfl, rfl, rfl, rfl⟩

/-- C4 (code bug): when a diagnostic line carries the failure
signature, the delegate terminates the run mid-scan with the subprocess
handle still open (`exit` is reached before `pclose`), while on the
success path the handle is closed — refuting "cleanup on every exit
path" on the fatal-scan path. -/
theorem c4_handle_not_closed_on_fatal_scan :
    failScanRun.result = Except.error SimoxError.MeshConversionFailed
    ∧ failScanRun.toolInvoked = true
    ∧ failScanRun.handleClosed = false
    ∧ okScanRun.result = Except.ok "/out/meshes/m.wrl"
    ∧ okScanRun.handleClosed = true :=
  ⟨rfl, rfl, rfl, rfl, rfl⟩

/-- C6: an output filename that does not split into exactly two parts
on `"."` makes the conversion fail with `MalformedOutputName`, for
every model and every collaborator — before any model access, with no
document emitted. -/
theorem c6_malformed_output_name (env : EmitEnv) (t : LinkTree) (f : String)
    (h : (strSplitOn "." f).length ≠ 2) :
    write_xml env t f = Except.error SimoxError.MalformedOutputName := by
  simp only [write_xml]
  rw [if_neg h]

/-- C6 witness: the filename `hand` (no dot). -/
theorem c6_witness :
    (strSplitOn "." "hand").length ≠ 2
    ∧ write_xml demoEnv t3 "hand" = Except.error SimoxError.MalformedOutputName :=
  ⟨by decide, c6_malformed_output_name demoEnv t3 "hand" (by decide)⟩

/-- C7 (amended): a mesh reference that does not *contain* the package
scheme marker anywhere — in particular any reference with the prefix
entirely absent — or whose remainder splits into fewer than two
`/`-segments, fails with `MalformedMeshReference` before the external
tool is invoked (and with no handle opened). -/
theorem c7_malformed_mesh_reference (env : EmitEnv) (f : String)
    (h : (strSplitOn pkgScheme f).length < 2
      ∨ (strSplitOn "/" (eraseScheme f)).length < 2) :
    convert_mesh env f = ⟨Except.error SimoxError.MalformedMeshReference, false, false⟩ := by
  unfold convert_mesh
  rcases h with h | h
  · rw [if_pos h]
  · by_cases h1 : (strSplitOn pkgScheme f).length < 2
    · rw [if_pos h1]
    · rw [if_neg h1, if_pos h]

/-- C7 witness: the schemeless reference `meshes/m.stl`. -/
theorem c7_witness :
    ((strSplitOn pkgScheme "meshes/m.stl").length < 2
      ∨ (strSplitOn "/" (eraseScheme "meshes/m.stl")).length < 2)
    ∧ convert_mesh demoEnv "meshes/m.stl"
        = ⟨Except.error SimoxError.MalformedMeshReference, false, false⟩ :=
  ⟨Or.inl (by decide), c7_malformed_mesh_reference demoEnv "meshes/m.stl" (Or.inl (by decide))⟩

/-- C7 counterexample: `xpackage://p/m.stl` does not *start* with
`package://` (the marker is not a prefix of it), yet the delegate does
not fail — it erases the embedded marker, resolves package `xp`,
invokes the tool and returns a converted path, refuting the claim as
stated. -/
theorem c7_counterexample :
    isPre pkgScheme.data oddRef.data = false
    ∧ oddRefRun.result = Except.ok "/out/meshes/m.wrl"
    ∧ oddRefRun.toolInvoked = true :=
  ⟨rfl, rfl, rfl⟩

/-- C8: once the delegate reaches the external tool, the conversion
fails with `MeshConversionFailed` exactly when some diagnostic line
contains the failure signature, and returns the target mesh path
otherwise — for every environment, hence for every subprocess exit
code (`EmitEnv.toolExit` is never consulted; an exit status of zero
does not rescue a run whose output carries the signature). -/
theorem c8_error_signature_scan (env : EmitEnv) (f : String)
    (h1 : ¬ (strSplitOn pkgScheme f).length < 2)
    (h2 : ¬ (strSplitOn "/" (eraseScheme f)).length < 2) :
    ((env.toolOut (meshCmd env f)).any (fun l => hasSub meshErrSig l) = true →
      (convert_mesh env f).result = Except.error SimoxError.MeshConversionFailed)
    ∧ ((env.toolOut (meshCmd env f)).any (fun l => hasSub meshErrSig l) = false →
      (convert_mesh env f).result = Except.ok (simoxTarget env.output_dir f)) := by
  unfold convert_mesh
  rw [if_neg h1, if_neg h2]
  constructor
  · intro hs
    simp [hs]
  · intro hs
    simp [hs]

/-- C8 witness: a run whose tool output carries the signature. -/
theorem c8_witness :
    ¬ (strSplitOn pkgScheme "package://p/meshes/m.stl").length < 2
    ∧ ¬ (strSplitOn "/" (eraseScheme "package://p/meshes/m.stl")).length < 2
    ∧ (((failToolEnv.toolOut (meshCmd failToolEnv "package://p/meshes/m.stl")).any
          (fun l => hasSub meshErrSig l) = true →
        (convert_mesh failToolEnv "package://p/meshes/m.stl").result
          = Except.error SimoxError.MeshConversionFailed)
      ∧ ((failToolEnv.toolOut (meshCmd failToolEnv "package://p/meshes/m.stl")).any
          (fun l => hasSub meshErrSig l) = false →
        (convert_mesh failToolEnv "package://p/meshes/m.stl").result
          = Except.ok (simoxTarget failToolEnv.output_dir "package://p/meshes/m.stl"))) :=
  ⟨by decide, by decide,
    c8_error_signature_scan failToolEnv "package://p/meshes/m.stl" (by decide) (by decide)⟩

theorem insertKey_mem (c x : Char) (l : List Char) : x ∈ insertKey c l ↔ x = c ∨ x ∈ l := by
  induction l with
  | nil => simp [insertKey]
  | cons d ds ih =>
    simp only [insertKey]
    by_cases h1 : c < d
    · rw [if_pos h1]
      simp [List.mem_cons]
    · rw [if_neg h1]
      by_cases h2 : c = d
      · rw [if_pos h2]
        subst h2
        simp [List.mem_cons]
      · rw [if_neg h2]
        simp only [List.mem_cons, ih]
        tauto

theorem insertKey_sorted (c : Char) (l : List Char) (h : l.Sorted (· < ·)) :
    (insertKey c l).Sorted (· < ·) := by
  induction l with
  | nil => simp [insertKey]
  | cons d ds ih =>
    rw [List.sorted_cons] at h
    obtain ⟨hd, hds⟩ := h
    simp only [insertKey]
    by_cases h1 : c < d
    · rw [if_pos h1, List.sorted_cons]
      refine ⟨?_, List.sorted_cons.mpr ⟨hd, hds⟩⟩
      intro b hb
      rcases List.mem_cons.mp hb with rfl | hb
      · exact h1
      · exact lt_trans h1 (hd b hb)
    · rw [if_neg h1]
      by_cases h2 : c = d
      · rw [if_pos h2, List.sorted_cons]
        exact ⟨hd, hds⟩
      · rw [if_neg h2, List.sorted_cons]
        refine ⟨?_, ih hds⟩
        intro b hb
        rcases (insertKey_mem c b ds).mp hb with rfl | hb
        · exact lt_of_le_of_ne (le_of_not_lt h1) (Ne.symm h2)
        · exact hd b hb

theorem ga_aux_mem (names : List String) : ∀ (acc : List Char) (x : Char),
    x ∈ names.foldl (fun a n => insertKey (strFront n) a) acc
      ↔ x ∈ acc ∨ x ∈ names.map strFront := by
  induction names with
  | nil => simp
  | cons n ns ih =>
    intro acc x
    simp only [List.foldl_cons, List.map_cons, List.mem_cons]
    rw [ih, insertKey_mem]
    tauto

theorem ga_aux_sorted (names : List String) : ∀ acc : List Char,
    acc.Sorted (· < ·) →
    (names.foldl (fun a n => insertKey (strFront n) a) acc).Sorted (· < ·) := by
  induction names with
  | nil => intro acc h; simpa
  | cons n ns ih => intro acc h; exact ih _ (insertKey_sorted _ _ h)

/-- The function `get_actors` returns exactly the set of first characters of the
identifiers it is given. -/
theorem get_actors_mem (names : List String) (x : Char) :
    x ∈ get_actors names ↔ x ∈ names.map strFront := by
  rw [get_actors, ga_aux_mem]
  simp

/-- The function `get_actors` returns its keys in ascending character order
(`std::map` iteration order). -/
theorem get_actors_sorted (names : List String) : (get_actors names).Sorted (· < ·) :=
  ga_aux_sorted names [] (by simp)

theorem firstObs_mem (l : List Char) (x : Char) : x ∈ firstObs l ↔ x ∈ l := by
  induction l with
  | nil => simp [firstObs]
  | cons c cs ih =>
    rw [show firstObs (c :: cs) = c :: (firstObs cs).filter (fun d => d != c) from rfl]
    constructor
    · intro h
      rcases List.mem_cons.mp h with rfl | h
      · exact List.mem_cons_self _ _
      · exact List.mem_cons_of_mem _ (ih.mp (List.mem_of_mem_filter h))
    · intro h
      rcases List.mem_cons.mp h with rfl | h
      · exact List.mem_cons_self _ _
      · by_cases hx : x = c
        · exact hx ▸ List.mem_cons_self _ _
        · exact List.mem_cons_of_mem _ (List.mem_filter.mpr ⟨ih.mpr h, by simp [hx]⟩)

theorem firstObs_nodup (l : List Char) : (firstObs l).Nodup := by
  induction l with
  | nil => simp [firstObs]
  | cons c cs ih =>
    simp only [firstObs]
    rw [List.nodup_cons]
    refine ⟨?_, ih.filter _⟩
    intro hc
    have h := (List.mem_filter.mp hc).2
    simp at h

theorem firstObs_sorted (l : List Char) (h : l.Sorted (· ≤ ·)) :
    (firstObs l).Sorted (· < ·) := by
  induction l with
  | nil => simp [firstObs]
  | cons c cs ih =>
    rw [List.sorted_cons] at h
    obtain ⟨hc, hcs⟩ := h
    simp only [firstObs]
    rw [List.sorted_cons]
    refine ⟨?_, (ih hcs).filter _⟩
    intro b hb
    have hmem := (firstObs_mem cs b).mp (List.mem_of_mem_filter hb)
    have hbne : b ≠ c := by
      have h2 := (List.mem_filter.mp hb).2
      simpa using h2
    exact lt_of_le_of_ne (hc b hmem) (Ne.symm hbne)

/-- C5 (amended): the classifier returns the distinct first characters
in ascending character order; whenever the identifier list has its
first characters in non-decreasing order — as with the name-sorted
`joints_` vector the engine always passes — this coincides with the
order in which each distinct character was first observed.  (At the
empty list both sides are `[]`, and the function is deterministic, so
the remaining clauses of the claim are instances.) -/
theorem c5_sorted_first_observed (names : List String)
    (h : (names.map strFront).Sorted (· ≤ ·)) :
    get_actors names = firstObservedKeys names := by
  have hns : (get_actors names).Sorted (· < ·) := get_actors_sorted names
  have hfs : (firstObservedKeys names).Sorted (· < ·) := firstObs_sorted _ h
  have hnn : (get_actors names).Nodup := hns.imp fun hab => ne_of_lt hab
  have hfn : (firstObservedKeys names).Nodup := firstObs_nodup _
  have hsub1 : get_actors names ⊆ firstObservedKeys names := fun x hx =>
    (firstObs_mem _ x).mpr ((get_actors_mem names x).mp hx)
  have hsub2 : firstObservedKeys names ⊆ get_actors names := fun x hx =>
    (get_actors_mem names x).mpr ((firstObs_mem _ x).mp hx)
  have hperm := (List.subperm_of_subset hnn hsub1).antisymm
    (List.subperm_of_subset hfn hsub2)
  have : IsAntisymm Char (· < ·) := ⟨fun a b h1 h2 => (lt_asymm h1 h2).elim⟩
  exact List.eq_of_perm_of_sorted hperm hns hfs

/-- C5 witness: a first-character-sorted list, where map order and
first-observed order agree. -/
theorem c5_witness :
    (["a1", "b1"].map strFront).Sorted (· ≤ ·)
    ∧ get_actors ["a1", "b1"] = firstObservedKeys ["a1", "b1"] :=
  ⟨by decide, c5_sorted_first_observed ["a1", "b1"] (by decide)⟩

/-- C5 counterexample: on the (unsorted) list `["b1", "a1"]` the
classifier returns `['a', 'b']` — ascending map order — while the
first-observed order is `['b', 'a']`, refuting order preservation for
arbitrary input lists. -/
theorem c5_counterexample :
    get_actors ["b1", "a1"] ≠ firstObservedKeys ["b1", "a1"]
    ∧ get_actors ["b1", "a1"] = ['a', 'b']
    ∧ firstObservedKeys ["b1", "a1"] = ['b', 'a'] :=
  ⟨by decide, rfl, rfl⟩

/-- The `Actor` elements of the end-effector are exactly one per
classifier key. -/
theorem actor_children_endeff (u hb ht hg bl : String) (links_ joints_ : List String) :
    (add_endeffector_node u hb ht hg bl links_ joints_).children.filter
        (fun nd => nd.tag == "Actor")
      = (get_actors joints_).map (actorXml links_ joints_) := by
  have h : (add_endeffector_node u hb ht hg bl links_ joints_).children
      = preshapeXml joints_ :: staticXml bl
        :: (get_actors joints_).map (actorXml links_ joints_) := rfl
  rw [h, List.filter_cons_of_neg (by rw [show (preshapeXml joints_).tag = "Preshape" from rfl]; decide),
    List.filter_cons_of_neg (by rw [show (staticXml bl).tag = "Static" from rfl]; decide)]
  refine List.filter_eq_self.mpr ?_
  intro nd hnd
  obtain ⟨c, hc, rfl⟩ := List.mem_map.mp hnd
  rfl

/-- C10: actor group keys come exclusively from joint identifiers: a
link whose first character matches no joint's first character appears
in no `Actor` group, while a link whose first character is one of the
joint-derived keys does appear in that key's group. -/
theorem c10_actor_keys_from_joints (u hb ht hg bl : String) (links_ joints_ : List String)
    (ln : String) (hln : ln ∈ links_) :
    ((strFront ln ∉ joints_.map strFront) →
      ∀ a ∈ (add_endeffector_node u hb ht hg bl links_ joints_).children.filter
          (fun nd => nd.tag == "Actor"), ln ∉ nodeMemberNames a)
    ∧ (strFront ln ∈ joints_.map strFront →
      ∃ a ∈ (add_endeffector_node u hb ht hg bl links_ joints_).children.filter
          (fun nd => nd.tag == "Actor"), ln ∈ nodeMemberNames a) := by
  rw [actor_children_endeff]
  constructor
  · intro hnot a ha hmem
    obtain ⟨c, hc, rfl⟩ := List.mem_map.mp ha
    rw [nodeMemberNames_actorXml] at hmem
    have hcm : c ∈ joints_.map strFront := (get_actors_mem joints_ c).mp hc
    rcases List.mem_append.mp hmem with h | h
    · have heq : strFront ln = c := by simpa using (List.mem_filter.mp h).2
      exact hnot (heq ▸ hcm)
    · have heq : strFront ln = c := by simpa using (List.mem_filter.mp h).2
      exact hnot (heq ▸ hcm)
  · intro hin
    refine ⟨actorXml links_ joints_ (strFront ln), ?_, ?_⟩
    · exact List.mem_map_of_mem _ ((get_actors_mem joints_ (strFront ln)).mpr hin)
    · rw [nodeMemberNames_actorXml]
      exact List.mem_append.mpr (Or.inl (List.mem_filter.mpr ⟨hln, by simp⟩))

/-- C10 witness: link `fa` shares the key `f` with joint `f1` and is
listed in the `f` actor group; link `x1` (also present) matches no key. -/
theorem c10_witness :
    "fa" ∈ (["fa", "x1"] : List String)
    ∧ ((strFront "fa" ∉ (["f1"] : List String).map strFront →
        ∀ a ∈ (add_endeffector_node "H" "hb" "ht" "hg" "bl" ["fa", "x1"] ["f1"]).children.filter
            (fun nd => nd.tag == "Actor"), "fa" ∉ nodeMemberNames a)
      ∧ (strFront "fa" ∈ (["f1"] : List String).map strFront →
        ∃ a ∈ (add_endeffector_node "H" "hb" "ht" "hg" "bl" ["fa", "x1"] ["f1"]).children.filter
            (fun nd => nd.tag == "Actor"), "fa" ∈ nodeMemberNames a)) :=
  ⟨by decide,
    c10_actor_keys_from_joints "H" "hb" "ht" "hg" "bl" ["fa", "x1"] ["f1"] "fa" (by decide)⟩
